import Mathlib

/-!
Verification of the leveldb manifest / filename / internal-key layer.

Byte strings are modelled as `List Nat` (each element a byte value; the
encoders below only emit values < 256, and the decoders reduce each byte
modulo 256 exactly where the C++ code reads it through a `uint8_t`).
Machine integers are modelled as `Nat` with explicit `% 2^32` / `% 2^64`
at the points where the C++ code truncates.
-/

set_option maxRecDepth 4000

/-! ## Varint coding (util/coding.h is not part of src/)

Modelled from the spec: the spec's wire formats use `varint32` / `varint64`
and length-prefixed slices; these are the standard little-endian base-128
varints used by the (missing) util/coding.{h,cc}. Encoders emit the
canonical encoding; `GetVarint32` reads at most 5 bytes and keeps the low
32 bits, `GetVarint64` reads at most 10 bytes and keeps the low 64 bits,
mirroring the uint32_t / uint64_t accumulators of the source. -/

/-- Modelled from the spec: canonical base-128 varint digits of `n`,
least-significant group first. Structural on a fuel argument (`fuel > n`
always holds at the call site in `PutVarint`). -/
def putVarintAux : Nat → Nat → List Nat
  | 0, _ => []
  | fuel + 1, n => if n < 128 then [n] else (n % 128 + 128) :: putVarintAux fuel (n / 128)

/-- Modelled from the spec: varint encoding of an arbitrary natural. -/
def PutVarint (n : Nat) : List Nat := putVarintAux (n + 1) n

/-- Modelled from the spec: `PutVarint32` truncates to 32 bits (uint32_t). -/
def PutVarint32 (n : Nat) : List Nat := PutVarint (n % 2 ^ 32)

/-- Modelled from the spec: `PutVarint64` truncates to 64 bits (uint64_t). -/
def PutVarint64 (n : Nat) : List Nat := PutVarint (n % 2 ^ 64)

/-- Modelled from the spec: read a varint of at most `maxBytes` bytes;
returns the decoded value (before width truncation) and the rest. -/
def getVarintCore : Nat → List Nat → Option (Nat × List Nat)
  | 0, _ => none
  | _ + 1, [] => none
  | maxBytes + 1, b :: rest =>
    if b % 256 < 128 then some (b % 256, rest)
    else
      match getVarintCore maxBytes rest with
      | some (v, r) => some (v * 128 + b % 128, r)
      | none => none

/-- Modelled from the spec: `GetVarint32` (≤ 5 bytes, low 32 bits kept). -/
def GetVarint32 (l : List Nat) : Option (Nat × List Nat) :=
  (getVarintCore 5 l).map (fun p => (p.1 % 2 ^ 32, p.2))

/-- Modelled from the spec: `GetVarint64` (≤ 10 bytes, low 64 bits kept). -/
def GetVarint64 (l : List Nat) : Option (Nat × List Nat) :=
  (getVarintCore 10 l).map (fun p => (p.1 % 2 ^ 64, p.2))

/-- Modelled from the spec: `PutLengthPrefixedSlice` = varint32 length
followed by the bytes. -/
def PutLengthPrefixedSlice (s : List Nat) : List Nat := PutVarint32 s.length ++ s

/-- Modelled from the spec: `GetLengthPrefixedSlice` reads a varint32
length and then that many bytes. -/
def GetLengthPrefixedSlice (l : List Nat) : Option (List Nat × List Nat) :=
  match GetVarint32 l with
  | some (len, rest) => if len ≤ rest.length then some (rest.take len, rest.drop len) else none
  | none => none

/-! ## Fixed-width 64-bit little-endian coding -/

/-- Modelled from the spec: little-endian fixed-width encoding of the low
`k` bytes of `x` (EncodeFixed64 is `encFixed 8`). -/
def encFixed : Nat → Nat → List Nat
  | 0, _ => []
  | k + 1, x => x % 256 :: encFixed k (x / 256)

/-- Modelled from the spec: `EncodeFixed64`, little-endian u64. -/
def EncodeFixed64 (x : Nat) : List Nat := encFixed 8 x

/-- From src/db/dbformat.h usage: `DecodeFixed64` reads 8 bytes
little-endian (each byte through uint8_t, hence the `% 256`). -/
def DecodeFixed64 (l : List Nat) : Nat :=
  (l.take 8).foldr (fun b acc => b % 256 + acc * 256) 0

/-! ## InternalKey codec (src/db/dbformat.h) -/

namespace config

/-- From src/db/dbformat.h: `config::kNumLevels = 7`. -/
def kNumLevels : Nat := 7

end config

/-- From src/db/dbformat.h: `kTypeValue = 1` is the largest valid value type. -/
def kTypeValue : Nat := 1

/-- From src/db/dbformat.h: `kMaxSequenceNumber = 2^56 - 1`. -/
def kMaxSequenceNumber : Nat := 2 ^ 56 - 1

/-- From src/db/dbformat.h: the parsed form of an internal key. -/
structure ParsedInternalKey where
  user_key : List Nat
  sequence : Nat
  type : Nat
deriving DecidableEq, Repr

/-- Modelled from the spec (dbformat.cc is not part of src/): the spec's
encoding `user_key_bytes ‖ little_endian_u64((seq << 8) | type)`, which is
what `AppendInternalKey` appends (`PackSequenceAndType`). -/
def AppendInternalKey (k : ParsedInternalKey) : List Nat :=
  k.user_key ++ EncodeFixed64 (k.sequence * 256 + k.type)

/-- From src/db/dbformat.h lines 219-229: `ParseInternalKey`. Returns
`some` exactly when the C++ function returns true; the fields are the ones
it stores in `*result`. -/
def ParseInternalKey (internal_key : List Nat) : Option ParsedInternalKey :=
  let n := internal_key.length
  if n < 8 then none
  else
    let num := DecodeFixed64 (internal_key.drop (n - 8))
    let c := num % 256
    if c ≤ kTypeValue then some ⟨internal_key.take (n - 8), num / 256, c⟩ else none

/-- From src/db/dbformat.h lines 192-195: `InternalKey::DecodeFrom` stores
the bytes verbatim in `rep_` and returns `!rep_.empty()`. The pair is
(new `rep_`, returned bool). -/
def InternalKeyDecodeFrom (s : List Nat) : List Nat × Bool := (s, !s.isEmpty)

/-! ## VersionEdit (src/db/version_edit.h, src/db/version_edit.cc)

The C++ `has_X_` flag plus field pairs are modelled as `Option` fields
(`none` is the cleared state `has_X_ = false, X = 0`); `deleted_files_`
is a `std::set` iterated in strictly increasing order, modelled as a
sorted duplicate-free list kept ordered by `insertDeleted`. -/

/-- From src/db/version_edit.h: `FileMetaData` (the encoded fields). -/
structure FileMetaData where
  number : Nat
  file_size : Nat
  smallest : List Nat
  largest : List Nat
deriving DecidableEq, Repr

/-- From src/db/version_edit.h: the fields of `VersionEdit` that take part
in `EncodeTo` / `DecodeFrom`. -/
structure VersionEdit where
  comparator : Option (List Nat)
  log_number : Option Nat
  prev_log_number : Option Nat
  next_file_number : Option Nat
  last_sequence : Option Nat
  compact_pointers : List (Nat × List Nat)
  deleted_files : List (Nat × Nat)
  new_files : List (Nat × FileMetaData)
deriving DecidableEq, Repr

/-- From src/db/version_edit.cc `VersionEdit::Clear`: the cleared edit. -/
def VersionEdit.clear : VersionEdit := ⟨none, none, none, none, none, [], [], []⟩

/-- Strict order on `(level, file)` pairs used by the C++
`std::set<std::pair<int, uint64_t>>` (lexicographic). -/
def pairLt (a b : Nat × Nat) : Prop := a.1 < b.1 ∨ (a.1 = b.1 ∧ a.2 < b.2)

instance (a b : Nat × Nat) : Decidable (pairLt a b) := by
  unfold pairLt; infer_instance

/-- Ordered duplicate-free insertion, the effect of `std::set::insert`
on the iteration order. -/
def insertDeleted (x : Nat × Nat) : List (Nat × Nat) → List (Nat × Nat)
  | [] => [x]
  | y :: ys =>
    if pairLt x y then x :: y :: ys
    else if x = y then y :: ys
    else y :: insertDeleted x ys

/-- From src/db/version_edit.cc lines 105-148: `VersionEdit::EncodeTo`,
header records (tags 1, 2, 9, 3, 4). -/
def encOptBytes (tag : Nat) : Option (List Nat) → List Nat
  | none => []
  | some s => PutVarint32 tag ++ PutLengthPrefixedSlice s

/-- Header record for a numeric field (tags 2, 9, 3, 4). -/
def encOptNum (tag : Nat) : Option Nat → List Nat
  | none => []
  | some n => PutVarint32 tag ++ PutVarint64 n

/-- From src/db/version_edit.cc: the compact-pointer records (tag 5). -/
def encodeCompactPointers : List (Nat × List Nat) → List Nat
  | [] => []
  | p :: ps => PutVarint32 5 ++ PutVarint32 p.1 ++ PutLengthPrefixedSlice p.2 ++
      encodeCompactPointers ps

/-- From src/db/version_edit.cc: the deleted-file records (tag 6). -/
def encodeDeletedFiles : List (Nat × Nat) → List Nat
  | [] => []
  | d :: ds => PutVarint32 6 ++ PutVarint32 d.1 ++ PutVarint64 d.2 ++ encodeDeletedFiles ds

/-- From src/db/version_edit.cc: the new-file records (tag 7). -/
def encodeNewFiles : List (Nat × FileMetaData) → List Nat
  | [] => []
  | f :: fs => PutVarint32 7 ++ PutVarint32 f.1 ++ PutVarint64 f.2.number ++
      PutVarint64 f.2.file_size ++ PutLengthPrefixedSlice f.2.smallest ++
      PutLengthPrefixedSlice f.2.largest ++ encodeNewFiles fs

/-- From src/db/version_edit.cc lines 105-148: `VersionEdit::EncodeTo`. -/
def VersionEdit.EncodeTo (e : VersionEdit) : List Nat :=
  encOptBytes 1 e.comparator ++ encOptNum 2 e.log_number ++ encOptNum 9 e.prev_log_number ++
    encOptNum 3 e.next_file_number ++ encOptNum 4 e.last_sequence ++
    encodeCompactPointers e.compact_pointers ++ encodeDeletedFiles e.deleted_files ++
    encodeNewFiles e.new_files

/-- From src/db/version_edit.cc lines 159-167: `GetLevel` reads a varint32
and requires it to be `< config::kNumLevels`. -/
def GetLevel (l : List Nat) : Option (Nat × List Nat) :=
  match GetVarint32 l with
  | some (v, rest) => if v < config.kNumLevels then some (v, rest) else none
  | none => none

/-- From src/db/version_edit.cc lines 150-157: `GetInternalKey` reads a
length-prefixed slice and hands it to `InternalKey::DecodeFrom`, which
only rejects the empty string. -/
def GetInternalKey (l : List Nat) : Option (List Nat × List Nat) :=
  match GetLengthPrefixedSlice l with
  | some (s, rest) => if (InternalKeyDecodeFrom s).2 then some (s, rest) else none
  | none => none

/-- From src/db/version_edit.cc lines 169-267: the record loop of
`VersionEdit::DecodeFrom`. `fuel` only bounds the iteration count; the
caller passes `input.length + 1`, which is never exhausted because every
iteration consumes at least the tag byte. An `Except.error msg` is the
source's `Status::Corruption("VersionEdit", msg)`. -/
def decodeLoop : Nat → VersionEdit → List Nat → Except String VersionEdit
  | 0, _, _ => Except.error "fuel"
  | fuel + 1, e, input =>
    match GetVarint32 input with
    | none => if input.isEmpty then Except.ok e else Except.error "invalid tag"
    | some (tag, rest) =>
      if tag = 1 then
        match GetLengthPrefixedSlice rest with
        | some p => decodeLoop fuel { e with comparator := some p.1 } p.2
        | none => Except.error "comparator name"
      else if tag = 2 then
        match GetVarint64 rest with
        | some p => decodeLoop fuel { e with log_number := some p.1 } p.2
        | none => Except.error "log number"
      else if tag = 9 then
        match GetVarint64 rest with
        | some p => decodeLoop fuel { e with prev_log_number := some p.1 } p.2
        | none => Except.error "previous log number"
      else if tag = 3 then
        match GetVarint64 rest with
        | some p => decodeLoop fuel { e with next_file_number := some p.1 } p.2
        | none => Except.error "next file number"
      else if tag = 4 then
        match GetVarint64 rest with
        | some p => decodeLoop fuel { e with last_sequence := some p.1 } p.2
        | none => Except.error "last sequence number"
      else if tag = 5 then
        match GetLevel rest with
        | some lp =>
          match GetInternalKey lp.2 with
          | some kp =>
            decodeLoop fuel
              { e with compact_pointers := e.compact_pointers ++ [(lp.1, kp.1)] } kp.2
          | none => Except.error "compaction pointer"
        | none => Except.error "compaction pointer"
      else if tag = 6 then
        match GetLevel rest with
        | some lp =>
          match GetVarint64 lp.2 with
          | some np =>
            decodeLoop fuel
              { e with deleted_files := insertDeleted (lp.1, np.1) e.deleted_files } np.2
          | none => Except.error "deleted file"
        | none => Except.error "deleted file"
      else if tag = 7 then
        match GetLevel rest with
        | some lp =>
          match GetVarint64 lp.2 with
          | some np =>
            match GetVarint64 np.2 with
            | some sp =>
              match GetInternalKey sp.2 with
              | some smp =>
                match GetInternalKey smp.2 with
                | some lgp =>
                  decodeLoop fuel
                    { e with new_files := e.new_files ++ [(lp.1, ⟨np.1, sp.1, smp.1, lgp.1⟩)] }
                    lgp.2
                | none => Except.error "new-file entry"
              | none => Except.error "new-file entry"
            | none => Except.error "new-file entry"
          | none => Except.error "new-file entry"
        | none => Except.error "new-file entry"
      else Except.error "unknown tag"

instance [DecidableEq ε] [DecidableEq α] : DecidableEq (Except ε α) := fun a b =>
  match a, b with
  | Except.ok x, Except.ok y =>
    if h : x = y then isTrue (by rw [h]) else isFalse (by intro hc; cases hc; exact h rfl)
  | Except.error x, Except.error y =>
    if h : x = y then isTrue (by rw [h]) else isFalse (by intro hc; cases hc; exact h rfl)
  | Except.ok _, Except.error _ => isFalse (by intro hc; cases hc)
  | Except.error _, Except.ok _ => isFalse (by intro hc; cases hc)

/-- From src/db/version_edit.cc lines 169-267: `VersionEdit::DecodeFrom`
(starting from the `Clear()`-ed edit). -/
def VersionEdit.DecodeFrom (src : List Nat) : Except String VersionEdit :=
  decodeLoop (src.length + 1) VersionEdit.clear src

/-- A decode result is the source's `Status::Corruption` exactly when it
is an `Except.error` (the only error the function constructs). -/
def statusIsCorruption : Except String VersionEdit → Bool
  | Except.error _ => true
  | Except.ok _ => false

/-- Representation invariants of a C++ `VersionEdit` value, as used by the
round-trip claims: machine-integer widths of the numeric fields, string
lengths below 2^32 (`PutLengthPrefixedSlice` takes a 32-bit length), the
`std::set` iteration order of `deleted_files_`, levels below
`config::kNumLevels` and non-empty stored keys. -/
def WfEdit (e : VersionEdit) : Prop :=
  (∀ c ∈ e.comparator, c.length < 2 ^ 32) ∧
  (∀ n ∈ e.log_number, n < 2 ^ 64) ∧
  (∀ n ∈ e.prev_log_number, n < 2 ^ 64) ∧
  (∀ n ∈ e.next_file_number, n < 2 ^ 64) ∧
  (∀ n ∈ e.last_sequence, n < 2 ^ 64) ∧
  (∀ p ∈ e.compact_pointers, p.1 < config.kNumLevels ∧ p.2 ≠ [] ∧ p.2.length < 2 ^ 32) ∧
  (List.Pairwise pairLt e.deleted_files ∧
    ∀ d ∈ e.deleted_files, d.1 < config.kNumLevels ∧ d.2 < 2 ^ 64) ∧
  (∀ f ∈ e.new_files, f.1 < config.kNumLevels ∧ f.2.number < 2 ^ 64 ∧
    f.2.file_size < 2 ^ 64 ∧ f.2.smallest ≠ [] ∧ f.2.smallest.length < 2 ^ 32 ∧
    f.2.largest ≠ [] ∧ f.2.largest.length < 2 ^ 32)

instance (e : VersionEdit) : Decidable (WfEdit e) := by
  unfold WfEdit; infer_instance

/-! ## Record-list decode lemmas -/

/-- Number of encoded records contributed by an optional header field. -/
def optCount : Option α → Nat
  | none => 0
  | some _ => 1

/-- Number of records `EncodeTo` emits. -/
def recordCount (e : VersionEdit) : Nat :=
  optCount e.comparator + optCount e.log_number + optCount e.prev_log_number +
    optCount e.next_file_number + optCount e.last_sequence + e.compact_pointers.length +
    e.deleted_files.length + e.new_files.length

/-- A concrete non-trivial edit exercising every record kind. -/
def exampleEdit : VersionEdit :=
  { comparator := some [97, 98, 99]
    log_number := some 5
    prev_log_number := some 4
    next_file_number := some 9
    last_sequence := some 100
    compact_pointers := [(0, [1, 2, 3, 4, 5, 6, 7, 8])]
    deleted_files := [(0, 7), (1, 3)]
    new_files := [(2, ⟨8, 100, [10, 0, 0, 0, 0, 0, 0, 0, 1], [20, 0, 0, 0, 0, 0, 0, 0, 1]⟩)] }

/-! ## File names (src/db/filename.cc)

File names and file contents are modelled as `List Char`. -/

/-- Decimal digit characters (used by the `%06llu` format of the source). -/
def digitChar : Nat → Char
  | 0 => '0'
  | 1 => '1'
  | 2 => '2'
  | 3 => '3'
  | 4 => '4'
  | 5 => '5'
  | 6 => '6'
  | 7 => '7'
  | 8 => '8'
  | 9 => '9'
  | _ => 'x'

/-- Decimal digits of `n`, most significant first (fuel-structural;
callers pass `fuel > n`). -/
def natDigits : Nat → Nat → List Char
  | 0, _ => []
  | fuel + 1, n =>
    if n < 10 then [digitChar n] else natDigits fuel (n / 10) ++ [digitChar (n % 10)]

/-- Decimal rendering of `n` (the `%llu` part of the format). -/
def natToDecimal (n : Nat) : List Char := natDigits (n + 1) n

/-- The `%06llu` format: zero-padded to at least six digits. -/
def pad6Num (n : Nat) : List Char :=
  List.replicate (6 - (natToDecimal n).length) '0' ++ natToDecimal n

/-- From src/db/filename.cc lines 20-26: `MakeFileName` produces
`dbname + "/%06llu.%s"`. -/
def MakeFileName (dbname : List Char) (number : Nat) (suffix : List Char) : List Char :=
  dbname ++ ('/' :: (pad6Num number ++ '.' :: suffix))

/-- From src/db/filename.cc: `LogFileName`. -/
def LogFileName (dbname : List Char) (number : Nat) : List Char :=
  MakeFileName dbname number "log".toList

/-- From src/db/filename.cc lines 33-36: `TableFileName` (write path,
`.ldb`). -/
def TableFileName (dbname : List Char) (number : Nat) : List Char :=
  MakeFileName dbname number "ldb".toList

/-- From src/db/filename.cc lines 38-41: `SSTTableFileName` (legacy
`.sst`). -/
def SSTTableFileName (dbname : List Char) (number : Nat) : List Char :=
  MakeFileName dbname number "sst".toList

/-- From src/db/filename.cc lines 48-54: `DescriptorFileName` produces
`dbname + "/MANIFEST-%06llu"`. -/
def DescriptorFileName (dbname : List Char) (number : Nat) : List Char :=
  dbname ++ ('/' :: ("MANIFEST-".toList ++ pad6Num number))

/-- From src/db/filename.cc lines 63-65: `CurrentFileName`. -/
def CurrentFileName (dbname : List Char) : List Char := dbname ++ "/CURRENT".toList

/-- From src/db/filename.cc lines 69-72: `TempFileName`. -/
def TempFileName (dbname : List Char) (number : Nat) : List Char :=
  MakeFileName dbname number "dbtmp".toList

/-- From src/db/filename.h: the file kinds `ParseFileName` reports. -/
inductive FileType where
  | kLogFile
  | kDBLockFile
  | kTableFile
  | kDescriptorFile
  | kCurrentFile
  | kTempFile
  | kInfoLogFile
deriving DecidableEq, Repr

/-- Value of a digit character. -/
def digitVal (c : Char) : Nat := c.toNat - 48

/-- Value of a digit string, most significant first. -/
def digitsVal (ds : List Char) : Nat := ds.foldl (fun a c => a * 10 + digitVal c) 0

/-- Modelled from the spec (util/logging.cc is not part of src/):
`ConsumeDecimalNumber` consumes the maximal leading run of decimal digits
into a uint64, failing when there is no digit or the value overflows
64 bits. (The source file's own comment documents the accepted forms as
`[0-9]+`.) -/
def ConsumeDecimalNumber (l : List Char) : Option (Nat × List Char) :=
  let ds := l.takeWhile (fun c => c.isDigit)
  if ds.isEmpty then none
  else if digitsVal ds < 2 ^ 64 then some (digitsVal ds, l.dropWhile (fun c => c.isDigit))
  else none

/-- From src/db/filename.cc lines 91-134: `ParseFileName`. -/
def ParseFileName (filename : List Char) : Option (Nat × FileType) :=
  if filename = "CURRENT".toList then some (0, FileType.kCurrentFile)
  else if filename = "LOCK".toList then some (0, FileType.kDBLockFile)
  else if filename = "LOG".toList ∨ filename = "LOG.old".toList then
    some (0, FileType.kInfoLogFile)
  else if "MANIFEST-".toList.isPrefixOf filename then
    match ConsumeDecimalNumber (filename.drop 9) with
    | some (num, rest) => if rest = [] then some (num, FileType.kDescriptorFile) else none
    | none => none
  else
    match ConsumeDecimalNumber filename with
    | some (num, rest) =>
      if rest = ".log".toList then some (num, FileType.kLogFile)
      else if rest = ".sst".toList ∨ rest = ".ldb".toList then some (num, FileType.kTableFile)
      else if rest = ".dbtmp".toList then some (num, FileType.kTempFile)
      else none
    | none => none

/-! ## Environment / file-system model for SetCurrentFile

Modelled from the spec: the `Env` collaborator (src/include/leveldb/env.h
only declares it) is a file system mapping names to contents plus an
outcome for each fallible step. A failed `WriteStringToFileSync` may
leave partial content; a failed `RenameFile` changes nothing (the spec
requires the rename to be atomic). -/

/-- The file system: an association list from names to contents (the
first binding wins). -/
abbrev FS := List (List Char × List Char)

def fsGet : FS → List Char → Option (List Char)
  | [], _ => none
  | (k, v) :: rest, name => if k = name then some v else fsGet rest name

def fsRemove : FS → List Char → FS
  | [], _ => []
  | (k, v) :: rest, name =>
    if k = name then fsRemove rest name else (k, v) :: fsRemove rest name

def fsSet (fs : FS) (name content : List Char) : FS := (name, content) :: fs

/-- Modelled from the spec: outcome of the two fallible environment steps
(`true` = the step returns an OK status). -/
structure EnvOutcome where
  writeOk : Bool
  renameOk : Bool
  partialContent : Option (List Char)

/-- Modelled from the spec: `WriteStringToFileSync` (write + fsync); on
failure the file may hold `partialContent` or not exist. -/
def WriteStringToFileSync (env : EnvOutcome) (fs : FS) (data fname : List Char) : Bool × FS :=
  if env.writeOk then (true, fsSet fs fname data)
  else
    (false,
      match env.partialContent with
      | some pc => fsSet fs fname pc
      | none => fs)

/-- Modelled from the spec: atomic `Env::RenameFile`; on failure nothing
changes. -/
def RenameFile (env : EnvOutcome) (fs : FS) (src target : List Char) : Bool × FS :=
  if env.renameOk then
    (true,
      match fsGet fs src with
      | some c => fsSet (fsRemove fs src) target c
      | none => fs)
  else (false, fs)

/-- Modelled from the spec: `Env::RemoveFile`. -/
def RemoveFile (fs : FS) (fname : List Char) : FS := fsRemove fs fname

/-- From src/db/filename.cc lines 144-166: `SetCurrentFile`. Returns the
status (`true` = OK) and the resulting file system. -/
def SetCurrentFile (env : EnvOutcome) (fs : FS) (dbname : List Char)
    (descriptor_number : Nat) : Bool × FS :=
  let manifest := DescriptorFileName dbname descriptor_number
  let contents := manifest.drop (dbname.length + 1)
  let tmp := TempFileName dbname descriptor_number
  let w := WriteStringToFileSync env fs (contents ++ ['\n']) tmp
  let r := if w.1 then RenameFile env w.2 tmp (CurrentFileName dbname) else w
  if r.1 then r else (false, RemoveFile r.2 tmp)

/-! ## Version / NeedsCompaction (src/db/version_set.h) -/

/-- From src/db/dbformat.h: `config::kL0_CompactionTrigger = 4`. -/
def kL0_CompactionTrigger : Nat := 4

/-- From src/db/version_set.h: the fields of `Version` that
`NeedsCompaction` and `Finalize` read. `numFiles l` is
`files_[l].size()`, `levelBytes l` is `TotalFileSize(files_[l])`,
`file_to_compact` is the seek-budget-exhausted file (set by
`UpdateStats` once `allowed_seeks` reaches 0). -/
structure Version where
  numFiles : Nat → Nat
  levelBytes : Nat → Nat
  file_to_compact : Option Nat
  compaction_score : ℚ

/-- Modelled from the spec (version_set.cc is not part of src/): the
per-level score computed by `Finalize` — L0 file count over the
compaction trigger for level 0, level byte total over the level budget
(10 MiB growing tenfold per level) otherwise. -/
def levelScore (v : Version) (l : Nat) : ℚ :=
  if l = 0 then (v.numFiles 0 : ℚ) / (kL0_CompactionTrigger : ℚ)
  else (v.levelBytes l : ℚ) / (10485760 * 10 ^ (l - 1) : ℚ)

/-- Modelled from the spec: `Finalize` sets `compaction_score_` to the
best (largest) level score over levels `0 .. kNumLevels - 2`, starting
from -1. -/
def finalizeScore (v : Version) : ℚ :=
  ((List.range (config.kNumLevels - 1)).map (fun l => levelScore v l)).foldl max (-1)

/-- From src/db/version_set.h lines 362-365: `VersionSet::NeedsCompaction`
on the current version. -/
def NeedsCompaction (v : Version) : Bool :=
  decide (v.compaction_score ≥ 1) || v.file_to_compact.isSome

/-- A version with four level-0 files (score exactly 1). -/
def versionExample : Version :=
  { numFiles := fun _ => 4
    levelBytes := fun _ => 0
    file_to_compact := none
    compaction_score := 1 }

/-! ## TableCache::FindTable (src/db/table_cache.cc) -/

/-- Modelled from the spec: outcomes of the environment and table-parse
steps of `FindTable` — `ldbOpens` / `sstOpens` are whether
`Env::NewRandomAccessFile` succeeds on the `.ldb` / legacy `.sst` name,
and `ldbParses` / `sstParses` whether `Table::Open` (table/ sources are
not in src/) succeeds on the respective opened file. -/
structure TableEnv where
  ldbOpens : Bool
  sstOpens : Bool
  ldbParses : Bool
  sstParses : Bool

/-- From src/db/table_cache.cc lines 71-106: `TableCache::FindTable`.
The cache is the set of cached keys (`EncodeFixed64(file_number)`,
i.e. the 64-bit truncated number); the result is (status is OK, cache
after the call). The `.sst` name is tried only when the `.ldb` open
fails; `Table::Open` runs on whichever file opened; only successful
results are inserted. -/
def FindTable (env : TableEnv) (cache : List Nat) (file_number : Nat) : Bool × List Nat :=
  let key := file_number % 2 ^ 64
  if key ∈ cache then (true, cache)
  else
    if env.ldbOpens then
      if env.ldbParses then (true, key :: cache) else (false, cache)
    else if env.sstOpens then
      if env.sstParses then (true, key :: cache) else (false, cache)
    else (false, cache)

/-! ## Lemmas and claim theorems -/

/-! ## Basic varint lemmas -/

theorem putVarintAux_ne_nil (fuel n : Nat) (h : 0 < fuel) : putVarintAux fuel n ≠ [] := by
  cases fuel with
  | zero => omega
  | succ f =>
    unfold putVarintAux
    split <;> simp

theorem PutVarint_ne_nil (n : Nat) : PutVarint n ≠ [] :=
  putVarintAux_ne_nil _ _ (Nat.succ_pos n)

theorem PutVarint32_ne_nil (n : Nat) : PutVarint32 n ≠ [] := PutVarint_ne_nil _

theorem getVarintCore_putVarintAux (fuel : Nat) :
    ∀ k n rest, n < fuel → n < 128 ^ k → 0 < k →
      getVarintCore k (putVarintAux fuel n ++ rest) = some (n, rest) := by
  induction fuel with
  | zero => intro k n rest h; omega
  | succ f ih =>
    intro k n rest hfuel hk hkpos
    obtain ⟨k', rfl⟩ : ∃ k', k = k' + 1 := ⟨k - 1, by omega⟩
    unfold putVarintAux
    by_cases hn : n < 128
    · simp only [if_pos hn, List.cons_append, List.nil_append]
      unfold getVarintCore
      have : n % 256 = n := Nat.mod_eq_of_lt (by omega)
      simp [this, hn]
    · simp only [if_neg hn, List.cons_append]
      unfold getVarintCore
      have hb : ¬ (n % 128 + 128) % 256 < 128 := by omega
      simp only [if_neg hb]
      have hk' : 0 < k' := by
        by_contra h0
        have : k' = 0 := by omega
        subst this
        simp at hk
        omega
      have hdiv : n / 128 < f := by
        have h1 : n / 128 < n := Nat.div_lt_self (by omega) (by omega)
        omega
      have hdivk : n / 128 < 128 ^ k' := by
        rw [Nat.div_lt_iff_lt_mul (by omega)]
        calc n < 128 ^ (k' + 1) := hk
        _ = 128 ^ k' * 128 := by ring
      rw [ih k' (n / 128) rest hdiv hdivk hk']
      have : (n % 128 + 128) % 128 = n % 128 := by omega
      simp [this]
      omega

theorem GetVarint32_PutVarint32 (n : Nat) (rest : List Nat) :
    GetVarint32 (PutVarint32 n ++ rest) = some (n % 2 ^ 32, rest) := by
  unfold GetVarint32 PutVarint32 PutVarint
  rw [getVarintCore_putVarintAux (n % 2 ^ 32 + 1) 5 (n % 2 ^ 32) rest (by omega)
    (by have := Nat.mod_lt n (show 0 < 2 ^ 32 by norm_num); norm_num; omega) (by norm_num)]
  simp [Nat.mod_mod_of_dvd]

theorem GetVarint64_PutVarint64 (n : Nat) (rest : List Nat) :
    GetVarint64 (PutVarint64 n ++ rest) = some (n % 2 ^ 64, rest) := by
  unfold GetVarint64 PutVarint64 PutVarint
  rw [getVarintCore_putVarintAux (n % 2 ^ 64 + 1) 10 (n % 2 ^ 64) rest (by omega)
    (by have := Nat.mod_lt n (show 0 < 2 ^ 64 by norm_num); norm_num; omega) (by norm_num)]
  simp [Nat.mod_mod_of_dvd]

theorem GetLengthPrefixedSlice_put (s rest : List Nat) (h : s.length < 2 ^ 32) :
    GetLengthPrefixedSlice (PutLengthPrefixedSlice s ++ rest) = some (s, rest) := by
  unfold GetLengthPrefixedSlice PutLengthPrefixedSlice
  rw [List.append_assoc, GetVarint32_PutVarint32]
  rw [Nat.mod_eq_of_lt h]
  simp only [List.length_append, if_pos (by omega : s.length ≤ s.length + rest.length)]
  rw [List.take_left, List.drop_left]

/-! ## Single-record decode steps -/

theorem GetLevel_put (lvl : Nat) (rest : List Nat) (h : lvl < config.kNumLevels) :
    GetLevel (PutVarint32 lvl ++ rest) = some (lvl, rest) := by
  unfold GetLevel
  rw [GetVarint32_PutVarint32]
  have h32 : lvl % 2 ^ 32 = lvl := Nat.mod_eq_of_lt (by unfold config.kNumLevels at h; omega)
  rw [h32]
  simp [h]

theorem GetInternalKey_put (k rest : List Nat) (hne : k ≠ []) (hlen : k.length < 2 ^ 32) :
    GetInternalKey (PutLengthPrefixedSlice k ++ rest) = some (k, rest) := by
  unfold GetInternalKey
  rw [GetLengthPrefixedSlice_put _ _ hlen]
  simp [InternalKeyDecodeFrom, hne]

theorem decodeLoop_comparator (fuel : Nat) (st : VersionEdit) (c rest : List Nat)
    (h : c.length < 2 ^ 32) :
    decodeLoop (fuel + 1) st (PutVarint32 1 ++ (PutLengthPrefixedSlice c ++ rest)) =
      decodeLoop fuel { st with comparator := some c } rest := by
  simp only [decodeLoop, GetVarint32_PutVarint32]
  norm_num
  rw [GetLengthPrefixedSlice_put _ _ h]

theorem decodeLoop_log_number (fuel : Nat) (st : VersionEdit) (n : Nat) (rest : List Nat)
    (h : n < 2 ^ 64) :
    decodeLoop (fuel + 1) st (PutVarint32 2 ++ (PutVarint64 n ++ rest)) =
      decodeLoop fuel { st with log_number := some n } rest := by
  simp only [decodeLoop, GetVarint32_PutVarint32]
  norm_num
  rw [GetVarint64_PutVarint64]
  simp [show n % 18446744073709551616 = n by omega]

theorem decodeLoop_prev_log_number (fuel : Nat) (st : VersionEdit) (n : Nat) (rest : List Nat)
    (h : n < 2 ^ 64) :
    decodeLoop (fuel + 1) st (PutVarint32 9 ++ (PutVarint64 n ++ rest)) =
      decodeLoop fuel { st with prev_log_number := some n } rest := by
  simp only [decodeLoop, GetVarint32_PutVarint32]
  norm_num
  rw [GetVarint64_PutVarint64]
  simp [show n % 18446744073709551616 = n by omega]

theorem decodeLoop_next_file_number (fuel : Nat) (st : VersionEdit) (n : Nat) (rest : List Nat)
    (h : n < 2 ^ 64) :
    decodeLoop (fuel + 1) st (PutVarint32 3 ++ (PutVarint64 n ++ rest)) =
      decodeLoop fuel { st with next_file_number := some n } rest := by
  simp only [decodeLoop, GetVarint32_PutVarint32]
  norm_num
  rw [GetVarint64_PutVarint64]
  simp [show n % 18446744073709551616 = n by omega]

theorem decodeLoop_last_sequence (fuel : Nat) (st : VersionEdit) (n : Nat) (rest : List Nat)
    (h : n < 2 ^ 64) :
    decodeLoop (fuel + 1) st (PutVarint32 4 ++ (PutVarint64 n ++ rest)) =
      decodeLoop fuel { st with last_sequence := some n } rest := by
  simp only [decodeLoop, GetVarint32_PutVarint32]
  norm_num
  rw [GetVarint64_PutVarint64]
  simp [show n % 18446744073709551616 = n by omega]

theorem decodeLoop_compact_pointer (fuel : Nat) (st : VersionEdit) (lvl : Nat)
    (k rest : List Nat) (hl : lvl < config.kNumLevels) (hne : k ≠ [])
    (hlen : k.length < 2 ^ 32) :
    decodeLoop (fuel + 1) st
        (PutVarint32 5 ++ (PutVarint32 lvl ++ (PutLengthPrefixedSlice k ++ rest))) =
      decodeLoop fuel { st with compact_pointers := st.compact_pointers ++ [(lvl, k)] } rest := by
  simp only [decodeLoop, GetVarint32_PutVarint32]
  norm_num
  rw [GetLevel_put _ _ hl]
  simp only []
  rw [GetInternalKey_put _ _ hne hlen]

theorem decodeLoop_deleted_file (fuel : Nat) (st : VersionEdit) (lvl n : Nat)
    (rest : List Nat) (hl : lvl < config.kNumLevels) (hn : n < 2 ^ 64) :
    decodeLoop (fuel + 1) st (PutVarint32 6 ++ (PutVarint32 lvl ++ (PutVarint64 n ++ rest))) =
      decodeLoop fuel { st with deleted_files := insertDeleted (lvl, n) st.deleted_files }
        rest := by
  simp only [decodeLoop, GetVarint32_PutVarint32]
  norm_num
  rw [GetLevel_put _ _ hl]
  simp only []
  rw [GetVarint64_PutVarint64]
  simp [show n % 18446744073709551616 = n by omega]

theorem decodeLoop_new_file (fuel : Nat) (st : VersionEdit) (lvl : Nat) (f : FileMetaData)
    (rest : List Nat) (hl : lvl < config.kNumLevels) (hn : f.number < 2 ^ 64)
    (hs : f.file_size < 2 ^ 64) (hsm : f.smallest ≠ []) (hsml : f.smallest.length < 2 ^ 32)
    (hlg : f.largest ≠ []) (hlgl : f.largest.length < 2 ^ 32) :
    decodeLoop (fuel + 1) st
        (PutVarint32 7 ++ (PutVarint32 lvl ++ (PutVarint64 f.number ++ (PutVarint64 f.file_size ++
          (PutLengthPrefixedSlice f.smallest ++ (PutLengthPrefixedSlice f.largest ++ rest)))))) =
      decodeLoop fuel { st with new_files := st.new_files ++ [(lvl, f)] } rest := by
  simp only [decodeLoop, GetVarint32_PutVarint32]
  norm_num
  rw [GetLevel_put _ _ hl]
  simp only []
  rw [GetVarint64_PutVarint64]
  simp only []
  rw [GetVarint64_PutVarint64]
  simp only []
  rw [GetInternalKey_put _ _ hsm hsml]
  simp only []
  rw [GetInternalKey_put _ _ hlg hlgl]
  simp [show f.number % 18446744073709551616 = f.number by omega,
    show f.file_size % 18446744073709551616 = f.file_size by omega]

theorem decodeLoop_opt_comparator (o : Option (List Nat)) (fuel : Nat) (st : VersionEdit)
    (rest : List Nat) (hst : st.comparator = none) (hwf : ∀ c ∈ o, c.length < 2 ^ 32) :
    decodeLoop (fuel + optCount o) st (encOptBytes 1 o ++ rest) =
      decodeLoop fuel { st with comparator := o } rest := by
  cases o with
  | none =>
    have : { st with comparator := none } = st := by cases st; simp_all
    simp [encOptBytes, optCount, this]
  | some c =>
    have hc : c.length < 2 ^ 32 := hwf c rfl
    simp only [encOptBytes, optCount, List.append_assoc]
    exact decodeLoop_comparator fuel st c rest hc

theorem decodeLoop_opt_log_number (o : Option Nat) (fuel : Nat) (st : VersionEdit)
    (rest : List Nat) (hst : st.log_number = none) (hwf : ∀ n ∈ o, n < 2 ^ 64) :
    decodeLoop (fuel + optCount o) st (encOptNum 2 o ++ rest) =
      decodeLoop fuel { st with log_number := o } rest := by
  cases o with
  | none =>
    have : { st with log_number := none } = st := by cases st; simp_all
    simp [encOptNum, optCount, this]
  | some n =>
    have hn : n < 2 ^ 64 := hwf n rfl
    simp only [encOptNum, optCount, List.append_assoc]
    exact decodeLoop_log_number fuel st n rest hn

theorem decodeLoop_opt_prev_log_number (o : Option Nat) (fuel : Nat) (st : VersionEdit)
    (rest : List Nat) (hst : st.prev_log_number = none) (hwf : ∀ n ∈ o, n < 2 ^ 64) :
    decodeLoop (fuel + optCount o) st (encOptNum 9 o ++ rest) =
      decodeLoop fuel { st with prev_log_number := o } rest := by
  cases o with
  | none =>
    have : { st with prev_log_number := none } = st := by cases st; simp_all
    simp [encOptNum, optCount, this]
  | some n =>
    have hn : n < 2 ^ 64 := hwf n rfl
    simp only [encOptNum, optCount, List.append_assoc]
    exact decodeLoop_prev_log_number fuel st n rest hn

theorem decodeLoop_opt_next_file_number (o : Option Nat) (fuel : Nat) (st : VersionEdit)
    (rest : List Nat) (hst : st.next_file_number = none) (hwf : ∀ n ∈ o, n < 2 ^ 64) :
    decodeLoop (fuel + optCount o) st (encOptNum 3 o ++ rest) =
      decodeLoop fuel { st with next_file_number := o } rest := by
  cases o with
  | none =>
    have : { st with next_file_number := none } = st := by cases st; simp_all
    simp [encOptNum, optCount, this]
  | some n =>
    have hn : n < 2 ^ 64 := hwf n rfl
    simp only [encOptNum, optCount, List.append_assoc]
    exact decodeLoop_next_file_number fuel st n rest hn

theorem decodeLoop_opt_last_sequence (o : Option Nat) (fuel : Nat) (st : VersionEdit)
    (rest : List Nat) (hst : st.last_sequence = none) (hwf : ∀ n ∈ o, n < 2 ^ 64) :
    decodeLoop (fuel + optCount o) st (encOptNum 4 o ++ rest) =
      decodeLoop fuel { st with last_sequence := o } rest := by
  cases o with
  | none =>
    have : { st with last_sequence := none } = st := by cases st; simp_all
    simp [encOptNum, optCount, this]
  | some n =>
    have hn : n < 2 ^ 64 := hwf n rfl
    simp only [encOptNum, optCount, List.append_assoc]
    exact decodeLoop_last_sequence fuel st n rest hn

theorem decodeLoop_compact_pointers (cps : List (Nat × List Nat)) :
    ∀ fuel st rest,
      (∀ p ∈ cps, p.1 < config.kNumLevels ∧ p.2 ≠ [] ∧ p.2.length < 2 ^ 32) →
      decodeLoop (fuel + cps.length) st (encodeCompactPointers cps ++ rest) =
        decodeLoop fuel { st with compact_pointers := st.compact_pointers ++ cps } rest := by
  induction cps with
  | nil => intro fuel st rest _; simp [encodeCompactPointers]
  | cons p ps ih =>
    intro fuel st rest hwf
    obtain ⟨hl, hne, hlen⟩ := hwf p (List.mem_cons_self p ps)
    simp only [encodeCompactPointers, List.append_assoc, List.length_cons]
    rw [show fuel + (ps.length + 1) = (fuel + ps.length) + 1 by omega]
    rw [decodeLoop_compact_pointer (fuel + ps.length) st p.1 p.2 _ hl hne hlen]
    rw [ih (fuel) _ rest (fun q hq => hwf q (List.mem_cons_of_mem p hq))]
    simp

theorem insertDeleted_append (x : Nat × Nat) (l : List (Nat × Nat))
    (h : ∀ y ∈ l, pairLt y x) : insertDeleted x l = l ++ [x] := by
  induction l with
  | nil => simp [insertDeleted]
  | cons y ys ih =>
    have hy : pairLt y x := h y (List.mem_cons_self y ys)
    have h1 : ¬ pairLt x y := by unfold pairLt at *; omega
    have h2 : x ≠ y := by
      intro hxy
      subst hxy
      unfold pairLt at hy
      omega
    simp only [insertDeleted, if_neg h1, if_neg h2, List.cons_append]
    rw [ih (fun z hz => h z (List.mem_cons_of_mem y hz))]

theorem decodeLoop_deleted_files (dels : List (Nat × Nat)) :
    ∀ fuel st rest,
      List.Pairwise pairLt (st.deleted_files ++ dels) →
      (∀ d ∈ dels, d.1 < config.kNumLevels ∧ d.2 < 2 ^ 64) →
      decodeLoop (fuel + dels.length) st (encodeDeletedFiles dels ++ rest) =
        decodeLoop fuel { st with deleted_files := st.deleted_files ++ dels } rest := by
  induction dels with
  | nil => intro fuel st rest _ _; simp [encodeDeletedFiles]
  | cons d ds ih =>
    intro fuel st rest hsort hwf
    obtain ⟨hl, hn⟩ := hwf d (List.mem_cons_self d ds)
    simp only [encodeDeletedFiles, List.append_assoc, List.length_cons]
    rw [show fuel + (ds.length + 1) = (fuel + ds.length) + 1 by omega]
    rw [decodeLoop_deleted_file (fuel + ds.length) st d.1 d.2 _ hl hn]
    have hins : insertDeleted (d.1, d.2) st.deleted_files = st.deleted_files ++ [d] := by
      have := (List.pairwise_append.mp hsort).2.2
      exact insertDeleted_append d st.deleted_files
        (fun y hy => this y hy d (List.mem_cons_self d ds))
    rw [hins]
    have hsort2 : List.Pairwise pairLt ((st.deleted_files ++ [d]) ++ ds) := by
      rw [List.append_assoc]
      simpa using hsort
    have := ih fuel { st with deleted_files := st.deleted_files ++ [d] } rest
      (by simpa using hsort2) (fun q hq => hwf q (List.mem_cons_of_mem d hq))
    simp only at this
    rw [this]
    simp

theorem decodeLoop_new_files (nfs : List (Nat × FileMetaData)) :
    ∀ fuel st rest,
      (∀ f ∈ nfs, f.1 < config.kNumLevels ∧ f.2.number < 2 ^ 64 ∧ f.2.file_size < 2 ^ 64 ∧
        f.2.smallest ≠ [] ∧ f.2.smallest.length < 2 ^ 32 ∧ f.2.largest ≠ [] ∧
        f.2.largest.length < 2 ^ 32) →
      decodeLoop (fuel + nfs.length) st (encodeNewFiles nfs ++ rest) =
        decodeLoop fuel { st with new_files := st.new_files ++ nfs } rest := by
  induction nfs with
  | nil => intro fuel st rest _; simp [encodeNewFiles]
  | cons f fs ih =>
    intro fuel st rest hwf
    obtain ⟨hl, hn, hs, hsm, hsml, hlg, hlgl⟩ := hwf f (List.mem_cons_self f fs)
    simp only [encodeNewFiles, List.append_assoc, List.length_cons]
    rw [show fuel + (fs.length + 1) = (fuel + fs.length) + 1 by omega]
    rw [decodeLoop_new_file (fuel + fs.length) st f.1 f.2 _ hl hn hs hsm hsml hlg hlgl]
    rw [ih fuel _ rest (fun q hq => hwf q (List.mem_cons_of_mem f hq))]
    simp

/-! ## Whole-edit decode lemma -/

theorem encOptBytes_count_le (tag : Nat) (o : Option (List Nat)) :
    optCount o ≤ (encOptBytes tag o).length := by
  cases o with
  | none => simp [encOptBytes, optCount]
  | some s =>
    have := PutVarint32_ne_nil tag
    simp only [encOptBytes, optCount, List.length_append]
    have : 0 < (PutVarint32 tag).length := List.length_pos.mpr (PutVarint32_ne_nil tag)
    omega

theorem encOptNum_count_le (tag : Nat) (o : Option Nat) :
    optCount o ≤ (encOptNum tag o).length := by
  cases o with
  | none => simp [encOptNum, optCount]
  | some n =>
    simp only [encOptNum, optCount, List.length_append]
    have : 0 < (PutVarint32 tag).length := List.length_pos.mpr (PutVarint32_ne_nil tag)
    omega

theorem encodeCompactPointers_count_le (cps : List (Nat × List Nat)) :
    cps.length ≤ (encodeCompactPointers cps).length := by
  induction cps with
  | nil => simp [encodeCompactPointers]
  | cons p ps ih =>
    simp only [encodeCompactPointers, List.length_append, List.length_cons]
    have : 0 < (PutVarint32 5).length := List.length_pos.mpr (PutVarint32_ne_nil 5)
    omega

theorem encodeDeletedFiles_count_le (dels : List (Nat × Nat)) :
    dels.length ≤ (encodeDeletedFiles dels).length := by
  induction dels with
  | nil => simp [encodeDeletedFiles]
  | cons d ds ih =>
    simp only [encodeDeletedFiles, List.length_append, List.length_cons]
    have : 0 < (PutVarint32 6).length := List.length_pos.mpr (PutVarint32_ne_nil 6)
    omega

theorem encodeNewFiles_count_le (nfs : List (Nat × FileMetaData)) :
    nfs.length ≤ (encodeNewFiles nfs).length := by
  induction nfs with
  | nil => simp [encodeNewFiles]
  | cons f fs ih =>
    simp only [encodeNewFiles, List.length_append, List.length_cons]
    have : 0 < (PutVarint32 7).length := List.length_pos.mpr (PutVarint32_ne_nil 7)
    omega

theorem recordCount_le (e : VersionEdit) : recordCount e ≤ (VersionEdit.EncodeTo e).length := by
  unfold recordCount VersionEdit.EncodeTo
  simp only [List.length_append]
  have h1 := encOptBytes_count_le 1 e.comparator
  have h2 := encOptNum_count_le 2 e.log_number
  have h3 := encOptNum_count_le 9 e.prev_log_number
  have h4 := encOptNum_count_le 3 e.next_file_number
  have h5 := encOptNum_count_le 4 e.last_sequence
  have h6 := encodeCompactPointers_count_le e.compact_pointers
  have h7 := encodeDeletedFiles_count_le e.deleted_files
  have h8 := encodeNewFiles_count_le e.new_files
  omega

theorem decodeLoop_encodeTo (e : VersionEdit) (h : WfEdit e) (fuel : Nat) (rest : List Nat) :
    decodeLoop (fuel + recordCount e) VersionEdit.clear (VersionEdit.EncodeTo e ++ rest) =
      decodeLoop fuel e rest := by
  obtain ⟨c, ln, pln, nfn, ls, cps, dels, nfs⟩ := e
  obtain ⟨hc, hln, hpln, hnfn, hls, hcps, ⟨hdelp, hdels⟩, hnfs⟩ := h
  simp only [recordCount, VersionEdit.EncodeTo, List.append_assoc] at *
  rw [show fuel + (optCount c + optCount ln + optCount pln + optCount nfn + optCount ls +
      cps.length + dels.length + nfs.length) =
    (fuel + nfs.length + dels.length + cps.length + optCount ls + optCount nfn + optCount pln +
      optCount ln) + optCount c by omega]
  rw [decodeLoop_opt_comparator c _ _ _ rfl hc]
  rw [show fuel + nfs.length + dels.length + cps.length + optCount ls + optCount nfn +
      optCount pln + optCount ln =
    (fuel + nfs.length + dels.length + cps.length + optCount ls + optCount nfn + optCount pln) +
      optCount ln by omega]
  rw [decodeLoop_opt_log_number ln _ _ _ rfl hln]
  rw [show fuel + nfs.length + dels.length + cps.length + optCount ls + optCount nfn +
      optCount pln =
    (fuel + nfs.length + dels.length + cps.length + optCount ls + optCount nfn) +
      optCount pln by omega]
  rw [decodeLoop_opt_prev_log_number pln _ _ _ rfl hpln]
  rw [show fuel + nfs.length + dels.length + cps.length + optCount ls + optCount nfn =
    (fuel + nfs.length + dels.length + cps.length + optCount ls) + optCount nfn by omega]
  rw [decodeLoop_opt_next_file_number nfn _ _ _ rfl hnfn]
  rw [show fuel + nfs.length + dels.length + cps.length + optCount ls =
    (fuel + nfs.length + dels.length + cps.length) + optCount ls by omega]
  rw [decodeLoop_opt_last_sequence ls _ _ _ rfl hls]
  rw [show fuel + nfs.length + dels.length + cps.length =
    (fuel + nfs.length + dels.length) + cps.length by omega]
  rw [decodeLoop_compact_pointers cps _ _ _ hcps]
  rw [show fuel + nfs.length + dels.length = (fuel + nfs.length) + dels.length by omega]
  rw [decodeLoop_deleted_files dels _ _ _ (by simpa using hdelp) hdels]
  rw [decodeLoop_new_files nfs _ _ _ hnfs]
  simp [VersionEdit.clear]

/-! ## Claim theorems: internal key and VersionEdit codec -/

theorem encFixed_length (k x : Nat) : (encFixed k x).length = k := by
  induction k generalizing x with
  | zero => simp [encFixed]
  | succ n ih => simp [encFixed, ih]

theorem foldr_encFixed (k x : Nat) :
    (encFixed k x).foldr (fun b acc => b % 256 + acc * 256) 0 = x % 256 ^ k := by
  induction k generalizing x with
  | zero => simp [encFixed, Nat.mod_one]
  | succ n ih =>
    simp only [encFixed, List.foldr_cons, ih]
    have hpow : (256 : Nat) ^ (n + 1) = 256 * 256 ^ n := by ring
    rw [hpow, Nat.mod_mul]
    have h1 : x % 256 % 256 = x % 256 := by omega
    rw [h1]
    ring

theorem DecodeFixed64_EncodeFixed64 (x : Nat) : DecodeFixed64 (EncodeFixed64 x) = x % 2 ^ 64 := by
  unfold DecodeFixed64 EncodeFixed64
  rw [List.take_of_length_le (by rw [encFixed_length])]
  rw [foldr_encFixed]
  norm_num

/-- C1: for every user key `u`, sequence number `s ≤ 2^56 - 1` and value
type `t ∈ {0 = tombstone, 1 = value}`, `ParseInternalKey` applied to the
`AppendInternalKey` encoding `u ‖ little_endian_u64((s << 8) | t)`
succeeds and returns exactly `user_key = u`, `sequence = s`, `type = t`. -/
theorem C1_internal_key_roundtrip (u : List Nat) (s t : Nat)
    (hs : s ≤ kMaxSequenceNumber) (ht : t ≤ kTypeValue) :
    ParseInternalKey (AppendInternalKey ⟨u, s, t⟩) = some ⟨u, s, t⟩ := by
  unfold AppendInternalKey ParseInternalKey
  simp only
  have hlen : (u ++ EncodeFixed64 (s * 256 + t)).length = u.length + 8 := by
    simp [EncodeFixed64, encFixed_length]
  rw [hlen]
  have h8 : ¬ u.length + 8 < 8 := by omega
  rw [if_neg h8]
  have hdrop : (u ++ EncodeFixed64 (s * 256 + t)).drop (u.length + 8 - 8) =
      EncodeFixed64 (s * 256 + t) := by
    have : u.length + 8 - 8 = u.length := by omega
    rw [this, List.drop_left]
  have htake : (u ++ EncodeFixed64 (s * 256 + t)).take (u.length + 8 - 8) = u := by
    have : u.length + 8 - 8 = u.length := by omega
    rw [this, List.take_left]
  rw [hdrop, htake, DecodeFixed64_EncodeFixed64]
  unfold kMaxSequenceNumber at hs
  unfold kTypeValue at ht
  have hfit : (s * 256 + t) % 2 ^ 64 = s * 256 + t := by
    have : s * 256 + t < 2 ^ 64 := by
      have h56 : (2 : Nat) ^ 56 - 1 = 72057594037927935 := by norm_num
      rw [h56] at hs
      norm_num
      omega
    exact Nat.mod_eq_of_lt this
  rw [hfit]
  have hc : (s * 256 + t) % 256 = t := by omega
  have hseq : (s * 256 + t) / 256 = s := by omega
  rw [hc, hseq]
  rw [if_pos (by unfold kTypeValue; omega)]

/-- C1 witness at a concrete key. -/
theorem C1_witness :
    7 ≤ kMaxSequenceNumber ∧ 1 ≤ kTypeValue ∧
      ParseInternalKey (AppendInternalKey ⟨[102, 111, 111], 7, 1⟩) =
        some ⟨[102, 111, 111], 7, 1⟩ :=
  ⟨by decide, by decide, C1_internal_key_roundtrip [102, 111, 111] 7 1 (by decide) (by decide)⟩

/-- C2: for every `VersionEdit` (with its C++ representation invariants:
levels below `config::kNumLevels`, non-empty stored internal keys, 64-bit
numeric fields, 32-bit string lengths, `std::set` iteration order),
`DecodeFrom ∘ EncodeTo` returns OK and reconstructs the identical edit:
same has-flags and values, comparator name, log/prev-log/next-file/last
sequence numbers, compact-pointer list, deleted-file set, new-file list. -/
theorem C2_version_edit_roundtrip (e : VersionEdit) (h : WfEdit e) :
    VersionEdit.DecodeFrom (VersionEdit.EncodeTo e) = Except.ok e := by
  unfold VersionEdit.DecodeFrom
  have hle : recordCount e ≤ (VersionEdit.EncodeTo e).length := recordCount_le e
  obtain ⟨f, hf⟩ : ∃ f, (VersionEdit.EncodeTo e).length + 1 = (f + 1) + recordCount e :=
    ⟨(VersionEdit.EncodeTo e).length - recordCount e, by omega⟩
  rw [hf]
  rw [show VersionEdit.EncodeTo e = VersionEdit.EncodeTo e ++ [] from (List.append_nil _).symm]
  rw [decodeLoop_encodeTo e h (f + 1) []]
  simp [decodeLoop, GetVarint32, getVarintCore]

/-- C2 witness at a concrete edit. -/
theorem C2_witness :
    WfEdit exampleEdit ∧
      VersionEdit.DecodeFrom (VersionEdit.EncodeTo exampleEdit) = Except.ok exampleEdit :=
  ⟨by decide, C2_version_edit_roundtrip exampleEdit (by decide)⟩

/-- C3: `ParseInternalKey` fails exactly on inputs shorter than 8 bytes or
whose trailing little-endian 64-bit tag has a low byte above
`kTypeValue = 1`; in all other cases it succeeds. -/
theorem C3_parse_internal_key_failure_iff (b : List Nat) :
    ParseInternalKey b = none ↔
      (b.length < 8 ∨ 1 < DecodeFixed64 (b.drop (b.length - 8)) % 256) := by
  by_cases h1 : b.length < 8
  · simp [ParseInternalKey, h1]
  · by_cases h2 : DecodeFixed64 (b.drop (b.length - 8)) % 256 ≤ kTypeValue
    · simp only [ParseInternalKey, if_neg h1, if_pos h2]
      unfold kTypeValue at h2
      simp
      omega
    · simp only [ParseInternalKey, if_neg h1, if_neg h2]
      unfold kTypeValue at h2
      simp
      omega

/-- C4: any input whose first decoded varint32 tag is outside
{1,…,7, 9} — in particular the reserved tag 8 — makes
`VersionEdit::DecodeFrom` return the Corruption status "unknown tag";
unknown tags are never skipped. -/
theorem C4_unknown_tag_corruption (input : List Nat) (tag : Nat) (rest : List Nat)
    (h1 : GetVarint32 input = some (tag, rest))
    (h2 : tag ∉ ([1, 2, 3, 4, 5, 6, 7, 9] : List Nat)) :
    VersionEdit.DecodeFrom input = Except.error "unknown tag" := by
  unfold VersionEdit.DecodeFrom
  simp only [decodeLoop, h1]
  simp only [List.mem_cons, List.mem_singleton, not_or] at h2
  obtain ⟨n1, n2, n3, n4, n5, n6, n7, n9⟩ := h2
  simp [n1, n2, n3, n4, n5, n6, n7, n9]

/-- C4 witness: the reserved tag 8 as first record. -/
theorem C4_witness :
    GetVarint32 [8] = some (8, []) ∧ (8 : Nat) ∉ ([1, 2, 3, 4, 5, 6, 7, 9] : List Nat) ∧
      VersionEdit.DecodeFrom [8] = Except.error "unknown tag" :=
  ⟨by decide, by decide, C4_unknown_tag_corruption [8] 8 [] (by decide) (by decide)⟩

theorem GetLevel_put_bad (lvl : Nat) (rest : List Nat)
    (h : ¬ lvl < config.kNumLevels) (h2 : lvl < 2 ^ 32) :
    GetLevel (PutVarint32 lvl ++ rest) = none := by
  unfold GetLevel
  rw [GetVarint32_PutVarint32, Nat.mod_eq_of_lt h2]
  simp [h]

/-- C9: an encoded VersionEdit that contains a compact-pointer (tag 5),
deleted-file (tag 6) or new-file (tag 7) record whose level field decodes
to a value ≥ `config::kNumLevels = 7` makes `VersionEdit::DecodeFrom`
return a Corruption status, whatever precedes or follows the record. -/
theorem C9_level_out_of_range_corruption (e : VersionEdit) (h : WfEdit e) (tag lvl : Nat)
    (rest : List Nat) (htag : tag = 5 ∨ tag = 6 ∨ tag = 7)
    (hlvl : config.kNumLevels ≤ lvl) (hlvl32 : lvl < 2 ^ 32) :
    statusIsCorruption (VersionEdit.DecodeFrom
      (VersionEdit.EncodeTo e ++ (PutVarint32 tag ++ (PutVarint32 lvl ++ rest)))) = true := by
  unfold VersionEdit.DecodeFrom
  have hle : recordCount e ≤ (VersionEdit.EncodeTo e).length := recordCount_le e
  set L := (VersionEdit.EncodeTo e ++ (PutVarint32 tag ++ (PutVarint32 lvl ++ rest))).length
    with hL
  have hlen : (VersionEdit.EncodeTo e).length ≤ L := by
    rw [hL]; simp [List.length_append]
  obtain ⟨f, hf⟩ : ∃ f, L + 1 = (f + 1) + recordCount e :=
    ⟨L - recordCount e, by omega⟩
  rw [hf]
  rw [decodeLoop_encodeTo e h (f + 1) _]
  have hbad : ¬ lvl < config.kNumLevels := by omega
  rcases htag with rfl | rfl | rfl
  · simp only [decodeLoop, GetVarint32_PutVarint32]
    norm_num
    rw [GetLevel_put_bad _ _ hbad hlvl32]
    simp [statusIsCorruption]
  · simp only [decodeLoop, GetVarint32_PutVarint32]
    norm_num
    rw [GetLevel_put_bad _ _ hbad hlvl32]
    simp [statusIsCorruption]
  · simp only [decodeLoop, GetVarint32_PutVarint32]
    norm_num
    rw [GetLevel_put_bad _ _ hbad hlvl32]
    simp [statusIsCorruption]

/-- C9 witness: a compact-pointer record naming level 7 after an empty
valid prefix. -/
theorem C9_witness :
    WfEdit VersionEdit.clear ∧ config.kNumLevels ≤ 7 ∧
      statusIsCorruption (VersionEdit.DecodeFrom
        (VersionEdit.EncodeTo VersionEdit.clear ++
          (PutVarint32 5 ++ (PutVarint32 7 ++ [])))) = true :=
  ⟨by decide, by decide,
    C9_level_out_of_range_corruption VersionEdit.clear (by decide) 5 7 [] (Or.inl rfl)
      (by decide) (by decide)⟩

/-- C10: `InternalKey::DecodeFrom` returns true on every non-empty input
(even ones shorter than the 8-byte trailer) and false only on the empty
string; consequently `VersionEdit::DecodeFrom` accepts a compact-pointer
record whose key `[120]` is not a valid internal-key encoding
(`ParseInternalKey` rejects it) — there is no 8-byte or type-byte
validation at this interface. -/
theorem C10_internal_key_decode_no_validation :
    (∀ s : List Nat, (InternalKeyDecodeFrom s).2 = true ↔ s ≠ []) ∧
      ParseInternalKey [120] = none ∧
      VersionEdit.DecodeFrom (PutVarint32 5 ++ (PutVarint32 3 ++ PutLengthPrefixedSlice [120])) =
        Except.ok ⟨none, none, none, none, none, [(3, [120])], [], []⟩ := by
  refine ⟨fun s => ?_, by decide, by decide⟩
  simp [InternalKeyDecodeFrom]

/-! ## File-system lemmas and digit lemmas -/

theorem fsGet_fsRemove_self (fs : FS) (name : List Char) :
    fsGet (fsRemove fs name) name = none := by
  induction fs with
  | nil => simp [fsRemove, fsGet]
  | cons p rest ih =>
    obtain ⟨k, v⟩ := p
    by_cases hk : k = name
    · simp [fsRemove, hk, ih]
    · simp [fsRemove, fsGet, hk, ih]

theorem fsGet_fsRemove_ne (fs : FS) (a b : List Char) (h : b ≠ a) :
    fsGet (fsRemove fs a) b = fsGet fs b := by
  induction fs with
  | nil => simp [fsRemove]
  | cons p rest ih =>
    obtain ⟨k, v⟩ := p
    have hab : a ≠ b := fun he => h he.symm
    by_cases hk : k = a
    · simp [fsRemove, fsGet, hk, hab, ih]
    · by_cases hb : k = b
      · simp [fsRemove, fsGet, hk, hb, h]
      · simp [fsRemove, fsGet, hk, hb, ih]

theorem digitChar_isDigit (m : Nat) (h : m < 10) : (digitChar m).isDigit = true := by
  interval_cases m <;> decide

theorem natDigits_isDigit (fuel : Nat) :
    ∀ n c, c ∈ natDigits fuel n → c.isDigit = true := by
  induction fuel with
  | zero => intro n c hc; simp [natDigits] at hc
  | succ f ih =>
    intro n c hc
    unfold natDigits at hc
    by_cases hn : n < 10
    · rw [if_pos hn] at hc
      simp at hc
      rw [hc]
      exact digitChar_isDigit n hn
    · rw [if_neg hn] at hc
      rcases List.mem_append.mp hc with h1 | h2
      · exact ih (n / 10) c h1
      · simp at h2
        rw [h2]
        exact digitChar_isDigit (n % 10) (Nat.mod_lt n (by omega))

theorem natToDecimal_ne_nil (n : Nat) : natToDecimal n ≠ [] := by
  unfold natToDecimal natDigits
  split <;> simp

theorem pad6Num_isDigit (n : Nat) : ∀ c ∈ pad6Num n, c.isDigit = true := by
  intro c hc
  unfold pad6Num at hc
  rcases List.mem_append.mp hc with h1 | h2
  · rw [List.eq_of_mem_replicate h1]
    decide
  · exact natDigits_isDigit (n + 1) n c h2

theorem pad6Num_ne_nil (n : Nat) : pad6Num n ≠ [] := by
  unfold pad6Num
  intro h
  rcases List.append_eq_nil.mp h with ⟨_, h2⟩
  exact natToDecimal_ne_nil n h2

theorem TempFileName_ne_CurrentFileName (d : List Char) (n : Nat) :
    TempFileName d n ≠ CurrentFileName d := by
  intro h
  unfold TempFileName MakeFileName CurrentFileName at h
  rw [show "/CURRENT".toList = '/' :: "CURRENT".toList from rfl] at h
  have h2 := List.append_cancel_left h
  simp only [List.cons.injEq, true_and] at h2
  cases hp : pad6Num n with
  | nil => exact pad6Num_ne_nil n hp
  | cons c cs =>
    rw [hp] at h2
    rw [show "CURRENT".toList = 'C' :: "URRENT".toList from rfl] at h2
    simp only [List.cons_append, List.cons.injEq] at h2
    have hd : c.isDigit = true := pad6Num_isDigit n c (by rw [hp]; exact List.mem_cons_self c cs)
    rw [h2.1] at hd
    exact absurd hd (by decide)

theorem DescriptorFileName_drop (d : List Char) (n : Nat) :
    (DescriptorFileName d n).drop (d.length + 1) = "MANIFEST-".toList ++ pad6Num n := by
  unfold DescriptorFileName
  rw [show d ++ ('/' :: ("MANIFEST-".toList ++ pad6Num n)) =
    (d ++ ['/']) ++ ("MANIFEST-".toList ++ pad6Num n) by simp]
  rw [show d.length + 1 = (d ++ ['/']).length by simp]
  rw [List.drop_left]

/-- C5: for every db name `d` and descriptor number `n ≥ 1`,
`SetCurrentFile` writes `"MANIFEST-" ++ %06llu(n) ++ "\n"` to the synced
temp file `d/%06llu(n).dbtmp` and renames it onto `d/CURRENT`; when both
steps succeed CURRENT holds exactly that line and the temp file is gone;
if either step fails, the temp file is removed, the rename does not take
effect (CURRENT is unchanged) and the error status is returned. -/
theorem C5_set_current_file (env : EnvOutcome) (fs : FS) (d : List Char) (n : Nat)
    (hn : 1 ≤ n) :
    (env.writeOk = true → env.renameOk = true →
      (SetCurrentFile env fs d n).1 = true ∧
      fsGet (SetCurrentFile env fs d n).2 (CurrentFileName d) =
        some ("MANIFEST-".toList ++ pad6Num n ++ ['\n']) ∧
      fsGet (SetCurrentFile env fs d n).2 (TempFileName d n) = none) ∧
    ((env.writeOk = false ∨ env.renameOk = false) →
      (SetCurrentFile env fs d n).1 = false ∧
      fsGet (SetCurrentFile env fs d n).2 (TempFileName d n) = none ∧
      fsGet (SetCurrentFile env fs d n).2 (CurrentFileName d) =
        fsGet fs (CurrentFileName d)) := by
  obtain ⟨w, r, pc⟩ := env
  have hne : TempFileName d n ≠ CurrentFileName d := TempFileName_ne_CurrentFileName d n
  have hne2 : CurrentFileName d ≠ TempFileName d n := fun he => hne he.symm
  have hdrop := DescriptorFileName_drop d n
  cases w with
  | true =>
    cases r with
    | true =>
      constructor
      · intro _ _
        refine ⟨rfl, ?_, ?_⟩
        · simp only [SetCurrentFile, WriteStringToFileSync, RenameFile, fsSet, if_true]
          simp only [fsGet, if_pos rfl]
          simp [hdrop]
        · simp only [SetCurrentFile, WriteStringToFileSync, RenameFile, fsSet, if_true]
          simp only [fsGet, if_neg hne2]
          exact fsGet_fsRemove_self _ _
      · intro h
        rcases h with h | h <;> exact absurd h (by simp)
    | false =>
      constructor
      · intro _ h
        exact absurd h (by simp)
      · intro _
        refine ⟨rfl, ?_, ?_⟩
        · simp only [SetCurrentFile, WriteStringToFileSync, RenameFile, RemoveFile, fsSet]
          simp only [if_true, Bool.false_eq_true, if_false]
          exact fsGet_fsRemove_self _ _
        · simp only [SetCurrentFile, WriteStringToFileSync, RenameFile, RemoveFile, fsSet]
          simp only [if_true, Bool.false_eq_true, if_false]
          rw [fsGet_fsRemove_ne _ _ _ hne2]
          simp [fsGet, if_neg hne]
  | false =>
    constructor
    · intro h
      exact absurd h (by simp)
    · intro _
      cases pc with
      | none =>
        refine ⟨rfl, ?_, ?_⟩
        · simp only [SetCurrentFile, WriteStringToFileSync, RenameFile, RemoveFile, fsSet]
          simp only [Bool.false_eq_true, if_false]
          exact fsGet_fsRemove_self _ _
        · simp only [SetCurrentFile, WriteStringToFileSync, RenameFile, RemoveFile, fsSet]
          simp only [Bool.false_eq_true, if_false]
          rw [fsGet_fsRemove_ne _ _ _ hne2]
      | some partial0 =>
        refine ⟨rfl, ?_, ?_⟩
        · simp only [SetCurrentFile, WriteStringToFileSync, RenameFile, RemoveFile, fsSet]
          simp only [Bool.false_eq_true, if_false]
          exact fsGet_fsRemove_self _ _
        · simp only [SetCurrentFile, WriteStringToFileSync, RenameFile, RemoveFile, fsSet]
          simp only [Bool.false_eq_true, if_false]
          rw [fsGet_fsRemove_ne _ _ _ hne2]
          simp [fsGet, if_neg hne]

/-- C5 witness: a successful run on a concrete database. -/
theorem C5_witness :
    1 ≤ 1 ∧
      ((SetCurrentFile ⟨true, true, none⟩ [] ['d', 'b'] 1).1 = true ∧
        fsGet (SetCurrentFile ⟨true, true, none⟩ [] ['d', 'b'] 1).2
            (CurrentFileName ['d', 'b']) =
          some ("MANIFEST-".toList ++ pad6Num 1 ++ ['\n']) ∧
        fsGet (SetCurrentFile ⟨true, true, none⟩ [] ['d', 'b'] 1).2
            (TempFileName ['d', 'b'] 1) = none) :=
  ⟨by decide,
    (C5_set_current_file ⟨true, true, none⟩ [] ['d', 'b'] 1 (by decide)).1 rfl rfl⟩

/-! ## ParseFileName lemmas -/

theorem takeWhile_digits (ds s : List Char) (hdig : ∀ c ∈ ds, c.isDigit = true)
    (hs : ∀ c, s.head? = some c → c.isDigit = false) :
    (ds ++ s).takeWhile (fun c => c.isDigit) = ds ∧
    (ds ++ s).dropWhile (fun c => c.isDigit) = s := by
  induction ds with
  | nil =>
    simp only [List.nil_append]
    cases s with
    | nil => simp
    | cons c cs =>
      have hcd := hs c rfl
      constructor
      · simp [List.takeWhile_cons, hcd]
      · simp [List.dropWhile_cons, hcd]
  | cons c cs ih =>
    have hc := hdig c (List.mem_cons_self c cs)
    obtain ⟨h1, h2⟩ := ih (fun x hx => hdig x (List.mem_cons_of_mem c hx))
    constructor
    · simp [List.takeWhile_cons, hc, h1]
    · simp [List.dropWhile_cons, hc, h2]

theorem ConsumeDecimalNumber_digits (ds s : List Char) (hne : ds ≠ [])
    (hdig : ∀ c ∈ ds, c.isDigit = true) (hval : digitsVal ds < 2 ^ 64)
    (hs : ∀ c, s.head? = some c → c.isDigit = false) :
    ConsumeDecimalNumber (ds ++ s) = some (digitsVal ds, s) := by
  obtain ⟨h1, h2⟩ := takeWhile_digits ds s hdig hs
  unfold ConsumeDecimalNumber
  simp only [h1, h2]
  rw [if_neg (by simp [hne]), if_pos hval]

theorem digits_append_ne_special (c : Char) (cs s : List Char) (hc : c.isDigit = true) :
    ((c :: cs) ++ s ≠ "CURRENT".toList) ∧ ((c :: cs) ++ s ≠ "LOCK".toList) ∧
    ((c :: cs) ++ s ≠ "LOG".toList) ∧ ((c :: cs) ++ s ≠ "LOG.old".toList) ∧
    "MANIFEST-".toList.isPrefixOf ((c :: cs) ++ s) = false := by
  have hC : c ≠ 'C' := fun h => by rw [h] at hc; exact absurd hc (by decide)
  have hL : c ≠ 'L' := fun h => by rw [h] at hc; exact absurd hc (by decide)
  have hM : c ≠ 'M' := fun h => by rw [h] at hc; exact absurd hc (by decide)
  refine ⟨?_, ?_, ?_, ?_, ?_⟩
  · intro h
    rw [List.cons_append, show "CURRENT".toList = 'C' :: "URRENT".toList from rfl] at h
    injection h with h1 _
    exact hC h1
  · intro h
    rw [List.cons_append, show "LOCK".toList = 'L' :: "OCK".toList from rfl] at h
    injection h with h1 _
    exact hL h1
  · intro h
    rw [List.cons_append, show "LOG".toList = 'L' :: "OG".toList from rfl] at h
    injection h with h1 _
    exact hL h1
  · intro h
    rw [List.cons_append, show "LOG.old".toList = 'L' :: "OG.old".toList from rfl] at h
    injection h with h1 _
    exact hL h1
  · have hMc : (('M' : Char) == c) = false := beq_eq_false_iff_ne.mpr (fun h => hM h.symm)
    rw [List.cons_append, show "MANIFEST-".toList = 'M' :: "ANIFEST-".toList from rfl]
    simp [List.isPrefixOf, hMc]

theorem isPrefixOf_append_self (l t : List Char) : l.isPrefixOf (l ++ t) = true := by
  induction l with
  | nil => simp [List.isPrefixOf]
  | cons c cs ih => simp [List.isPrefixOf, ih]

theorem head_not_digit_dot (s : List Char) :
    ∀ c, ('.' :: s).head? = some c → c.isDigit = false := by
  intro c h
  simp at h
  rw [← h]
  decide

/-- C6 counterexample: `ParseFileName` accepts `"1.log"`, whose number
part is not zero-padded 6-digit decimal, refuting the claim that numbered
names of any other form are rejected. -/
theorem C6_counterexample :
    ParseFileName ("1.log".toList) = some (1, FileType.kLogFile) ∧
      ("1".toList).length ≠ 6 := by decide

/-- C6 (amended): `ParseFileName` accepts a numbered name
(`N.log`, `N.sst`, `N.ldb`, `N.dbtmp`, `MANIFEST-N`) whenever the number
part is any non-empty run of decimal digits whose value fits in 64 bits,
zero-padded or not, of any length, and returns the decoded value with the
matching file type. (Generated names use the zero-padded 6-digit form,
but parsing does not require it.) -/
theorem C6_amended_parse_file_name (ds : List Char) (hne : ds ≠ [])
    (hdig : ∀ c ∈ ds, c.isDigit = true) (hval : digitsVal ds < 2 ^ 64) :
    ParseFileName (ds ++ ".log".toList) = some (digitsVal ds, FileType.kLogFile) ∧
    ParseFileName (ds ++ ".sst".toList) = some (digitsVal ds, FileType.kTableFile) ∧
    ParseFileName (ds ++ ".ldb".toList) = some (digitsVal ds, FileType.kTableFile) ∧
    ParseFileName (ds ++ ".dbtmp".toList) = some (digitsVal ds, FileType.kTempFile) ∧
    ParseFileName ("MANIFEST-".toList ++ ds) =
      some (digitsVal ds, FileType.kDescriptorFile) := by
  obtain ⟨c, cs, rfl⟩ : ∃ c cs, ds = c :: cs := by
    cases ds with
    | nil => exact absurd rfl hne
    | cons c cs => exact ⟨c, cs, rfl⟩
  have hc : c.isDigit = true := hdig c (List.mem_cons_self c cs)
  refine ⟨?_, ?_, ?_, ?_, ?_⟩
  · obtain ⟨n1, n2, n3, n4, n5⟩ := digits_append_ne_special c cs (".log".toList) hc
    unfold ParseFileName
    rw [if_neg n1, if_neg n2, if_neg (by push_neg; exact ⟨n3, n4⟩), if_neg (by rw [n5]; simp)]
    rw [show ".log".toList = '.' :: "log".toList from rfl,
      ConsumeDecimalNumber_digits (c :: cs) ('.' :: "log".toList) hne hdig hval
        (head_not_digit_dot _)]
    simp
  · obtain ⟨n1, n2, n3, n4, n5⟩ := digits_append_ne_special c cs (".sst".toList) hc
    unfold ParseFileName
    rw [if_neg n1, if_neg n2, if_neg (by push_neg; exact ⟨n3, n4⟩), if_neg (by rw [n5]; simp)]
    rw [show ".sst".toList = '.' :: "sst".toList from rfl,
      ConsumeDecimalNumber_digits (c :: cs) ('.' :: "sst".toList) hne hdig hval
        (head_not_digit_dot _)]
    simp
  · obtain ⟨n1, n2, n3, n4, n5⟩ := digits_append_ne_special c cs (".ldb".toList) hc
    unfold ParseFileName
    rw [if_neg n1, if_neg n2, if_neg (by push_neg; exact ⟨n3, n4⟩), if_neg (by rw [n5]; simp)]
    rw [show ".ldb".toList = '.' :: "ldb".toList from rfl,
      ConsumeDecimalNumber_digits (c :: cs) ('.' :: "ldb".toList) hne hdig hval
        (head_not_digit_dot _)]
    simp
  · obtain ⟨n1, n2, n3, n4, n5⟩ := digits_append_ne_special c cs (".dbtmp".toList) hc
    unfold ParseFileName
    rw [if_neg n1, if_neg n2, if_neg (by push_neg; exact ⟨n3, n4⟩), if_neg (by rw [n5]; simp)]
    rw [show ".dbtmp".toList = '.' :: "dbtmp".toList from rfl,
      ConsumeDecimalNumber_digits (c :: cs) ('.' :: "dbtmp".toList) hne hdig hval
        (head_not_digit_dot _)]
    simp
  · unfold ParseFileName
    have g1 : "MANIFEST-".toList ++ (c :: cs) ≠ "CURRENT".toList := by
      intro h
      rw [show "MANIFEST-".toList = 'M' :: "ANIFEST-".toList from rfl, List.cons_append,
        show "CURRENT".toList = 'C' :: "URRENT".toList from rfl] at h
      injection h with h1 _
      exact absurd h1 (by decide)
    have g2 : "MANIFEST-".toList ++ (c :: cs) ≠ "LOCK".toList := by
      intro h
      rw [show "MANIFEST-".toList = 'M' :: "ANIFEST-".toList from rfl, List.cons_append,
        show "LOCK".toList = 'L' :: "OCK".toList from rfl] at h
      injection h with h1 _
      exact absurd h1 (by decide)
    have g3 : "MANIFEST-".toList ++ (c :: cs) ≠ "LOG".toList := by
      intro h
      rw [show "MANIFEST-".toList = 'M' :: "ANIFEST-".toList from rfl, List.cons_append,
        show "LOG".toList = 'L' :: "OG".toList from rfl] at h
      injection h with h1 _
      exact absurd h1 (by decide)
    have g4 : "MANIFEST-".toList ++ (c :: cs) ≠ "LOG.old".toList := by
      intro h
      rw [show "MANIFEST-".toList = 'M' :: "ANIFEST-".toList from rfl, List.cons_append,
        show "LOG.old".toList = 'L' :: "OG.old".toList from rfl] at h
      injection h with h1 _
      exact absurd h1 (by decide)
    rw [if_neg g1, if_neg g2, if_neg (by push_neg; exact ⟨g3, g4⟩),
      if_pos (isPrefixOf_append_self _ _)]
    rw [show (9 : Nat) = ("MANIFEST-".toList).length from rfl, List.drop_left]
    have hcd : ConsumeDecimalNumber (c :: cs) = some (digitsVal (c :: cs), []) := by
      have := ConsumeDecimalNumber_digits (c :: cs) [] hne hdig hval
        (fun x hx => by simp at hx)
      rwa [List.append_nil] at this
    rw [hcd]
    simp

/-- C6 witness for the amended statement, at the 2-digit name `42.log`. -/
theorem C6_witness :
    (['4', '2'] : List Char) ≠ [] ∧ digitsVal ['4', '2'] < 2 ^ 64 ∧
      ParseFileName (['4', '2'] ++ ".log".toList) =
        some (digitsVal ['4', '2'], FileType.kLogFile) :=
  ⟨by decide, by decide,
    (C6_amended_parse_file_name ['4', '2'] (by decide) (by decide) (by decide)).1⟩

theorem foldl_max_ge_iff (l : List ℚ) (a c : ℚ) :
    c ≤ l.foldl max a ↔ c ≤ a ∨ ∃ x ∈ l, c ≤ x := by
  induction l generalizing a with
  | nil => simp
  | cons x xs ih =>
    rw [List.foldl_cons, ih]
    rw [le_max_iff]
    constructor
    · rintro ((h | h) | ⟨y, hy, hc⟩)
      · exact Or.inl h
      · exact Or.inr ⟨x, List.mem_cons_self x xs, h⟩
      · exact Or.inr ⟨y, List.mem_cons_of_mem x hy, hc⟩
    · rintro (h | ⟨y, hy, hc⟩)
      · exact Or.inl (Or.inl h)
      · rcases List.mem_cons.mp hy with rfl | hy2
        · exact Or.inl (Or.inr hc)
        · exact Or.inr ⟨y, hy2, hc⟩

/-- C7: with `compaction_score_` as computed by `Finalize`,
`VersionSet::NeedsCompaction` returns true exactly when some level's
size-based or file-count-based score reaches 1, or some file has
exhausted its seek budget (`file_to_compact_` is set). -/
theorem C7_needs_compaction_iff (v : Version)
    (hs : v.compaction_score = finalizeScore v) :
    NeedsCompaction v = true ↔
      ((∃ l < config.kNumLevels - 1, 1 ≤ levelScore v l) ∨
        v.file_to_compact ≠ none) := by
  unfold NeedsCompaction
  rw [Bool.or_eq_true, decide_eq_true_iff, Option.isSome_iff_ne_none]
  rw [hs]
  unfold finalizeScore
  rw [ge_iff_le, foldl_max_ge_iff]
  have hneg : ¬ ((1 : ℚ) ≤ -1) := by norm_num
  simp only [hneg, false_or, List.mem_map, List.mem_range]
  constructor
  · rintro (⟨x, ⟨l, hl, rfl⟩, hx⟩ | h)
    · exact Or.inl ⟨l, hl, hx⟩
    · exact Or.inr h
  · rintro (⟨l, hl, hx⟩ | h)
    · exact Or.inl ⟨levelScore v l, ⟨l, hl, rfl⟩, hx⟩
    · exact Or.inr h

theorem finalizeScore_versionExample : versionExample.compaction_score = finalizeScore versionExample := by
  unfold finalizeScore levelScore versionExample config.kNumLevels kL0_CompactionTrigger
  norm_num [List.range_succ, max_def]

/-- C7 witness: four L0 files trigger a needed compaction. -/
theorem C7_witness :
    versionExample.compaction_score = finalizeScore versionExample ∧
      NeedsCompaction versionExample = true :=
  ⟨finalizeScore_versionExample,
    (C7_needs_compaction_iff versionExample finalizeScore_versionExample).mpr
      (Or.inl ⟨0, by decide, by
        unfold levelScore versionExample kL0_CompactionTrigger
        norm_num⟩)⟩

/-- C8 counterexample: the `.ldb` file opens but does not parse as a
valid table while the `.sst` file opens and parses; the claim says the
lookup succeeds ("either file opens and parses"), but `FindTable` fails —
there is no fallback to `.sst` on a parse failure, only on an open
failure. -/
theorem C8_counterexample :
    (FindTable ⟨true, true, false, true⟩ [] 5).1 = false ∧
      (⟨true, true, false, true⟩ : TableEnv).sstOpens = true ∧
      (⟨true, true, false, true⟩ : TableEnv).sstParses = true := by decide

/-- C8 (amended): on a cache miss `FindTable` first attempts the `.ldb`
name and falls back to the legacy `.sst` name only when that open fails;
the lookup succeeds iff the file that opened parses as a valid table, the
key is inserted into the cache exactly on success, and error results are
never cached. -/
theorem C8_amended_find_table (env : TableEnv) (cache : List Nat) (n : Nat)
    (h : n % 2 ^ 64 ∉ cache) :
    (FindTable env cache n).1 =
      (if env.ldbOpens then env.ldbParses else env.sstOpens && env.sstParses) ∧
    (FindTable env cache n).2 =
      (if (FindTable env cache n).1 then n % 2 ^ 64 :: cache else cache) := by
  obtain ⟨lo, so, lp, sp⟩ := env
  unfold FindTable
  rw [if_neg h]
  cases lo <;> cases so <;> cases lp <;> cases sp <;> simp [h]

/-- C8 witness: a successful `.ldb` open and parse on an empty cache. -/
theorem C8_witness :
    (3 : Nat) % 2 ^ 64 ∉ ([] : List Nat) ∧
      (FindTable ⟨true, true, true, true⟩ [] 3).1 = true ∧
      (FindTable ⟨true, true, true, true⟩ [] 3).2 = [3 % 2 ^ 64] := by
  have h := C8_amended_find_table ⟨true, true, true, true⟩ [] 3 (by decide)
  exact ⟨by decide, h.1.trans (by decide), h.2.trans (by decide)⟩
